import Mathlib

/-!
Verification development for the checking/lowering stage of the till
compiler front end (src/checking/checker.rs, with the data model of the
checking module root and the IR consumed by src/codegen/genelf64.rs).

The checker is embedded shallowly: the mutable Checker struct (scope
stack, id counter, output instruction buffer) becomes an explicit record
threaded through the checking functions, and fallible checks return
Except Failure.  The source pushes instructions onto a final_ir vector;
expression checking never touches the scope stack or the id counter, so
checkExpr returns the list of appended instructions instead of a whole
updated state.  Vector push/pop at the end of the Rust scope stack is
modelled with the head of a Lean list, so the innermost scope is the
head and the reversed iteration of the source is plain list order here.
-/

namespace Tilang

/-- Identifier minted for variables (source alias VarId, a usize). -/
abbrev VarId := Nat

/-- Semantic types of the till language (source enum checking::Type).
The enum itself lives in the checking module root, which is absent from
the sources; its constructors are exactly those used throughout
checker.rs: Num, Bool, Char, Any and Array. -/
inductive Ty
| Num
| Bool
| Char
| Any
| Array (element : Ty)
deriving DecidableEq, Repr

/-- Modelled from the spec: the PartialEq implementation on semantic
types, defined in the checking module root which is absent from the
sources.  Compatibility is structural equality, except that Any (the
inferred element type of an empty array literal) is compatible with
every type it is compared against, in both directions and at arbitrary
nesting depth.  The empty_array_literals test in checker.rs pins this
behaviour down: an Array(Num) declaration accepts an empty literal of
type Array(Any), while a Bool declaration rejects it. -/
def teq : Ty → Ty → Bool
| .Any, _ => true
| _, .Any => true
| .Num, .Num => true
| .Bool, .Bool => true
| .Char, .Char => true
| .Array a, .Array b => teq a b
| _, _ => false

/-- Pointwise equality of type lists (Vec PartialEq delegating to the
element PartialEq modelled by teq); used for function signature lookup. -/
def teqList : List Ty → List Ty → Bool
| [], [] => true
| t :: ts, u :: us => teq t u && teqList ts us
| _, _ => false

/-- Constant values pushed by the checker (source enum ConstValue).  The
source stores an f64 for Num; the checker only stores literal values and
never computes with them, so the payload is modelled as Rat. -/
inductive ConstValue
| Num (value : Rat)
| Bool (value : Bool)
| Char (value : Char)
deriving DecidableEq, Repr

/-- Values pushed onto the evaluation stack (source enum Value). -/
inductive Value
| Constant (value : ConstValue)
| Variable (id : VarId)
deriving DecidableEq, Repr

/-- The IR instruction set (source enum checking::Instruction).  The
variants are those emitted by checker.rs and consumed by
codegen/genelf64.rs, together with the conditional jumps listed in the
output contract of the specification. -/
inductive Instruction
| Allocate (id : VarId)
| Deallocate (id : VarId)
| Push (value : Value)
| Store (id : VarId)
| Parameter (store_in : VarId) (param_number : Nat)
| Label (id : Nat)
| Jump (id : Nat)
| JumpIfTrue (id : Nat)
| JumpIfFalse (id : Nat)
| Function (id : Nat)
| CallExpectingValue (id : Nat)
| CallExpectingVoid (id : Nat)
| ReturnValue
| ReturnVoid
| Add
| Subtract
| Multiply
| Divide
| GreaterThan
| LessThan
| Equals
| Not
deriving DecidableEq, Repr

/-- Checking failures (source enum checking::Failure).  The variants are
those constructed in checker.rs and its tests; NestedFunctions is listed
by the specification's error taxonomy and is included so that claims
about it can be stated, but checker.rs never produces it. -/
inductive Failure
| VariableNotInScope (identifier : String)
| FunctionNotInScope (identifier : String) (params : List Ty)
| NonexistentPrimitiveType (identifier : String)
| RedeclaredToDifferentType (identifier : String) (expected : Ty) (encountered : Ty)
| UnexpectedType (expected : Ty) (encountered : Ty)
| VoidFunctionInExpr (identifier : String) (params : List Ty)
| RedefinedExistingFunction (identifier : String) (params : List Ty)
| FunctionDoesNotReturn (identifier : String) (params : List Ty) (expected : Ty)
| VoidFunctionReturnsValue (identifier : String) (params : List Ty) (encountered : Ty)
| NestedFunctions (identifier : String)
deriving DecidableEq, Repr

/-- A variable definition held by a scope (source struct VariableDef,
whose fields are pinned down by the scoping test in checker.rs). -/
structure VariableDef where
  identifier : String
  var_type : Ty
  id : VarId
deriving DecidableEq, Repr

/-- A function definition held by a scope (source struct FunctionDef;
the scoping test in checker.rs shows it has exactly these fields and in
particular carries no id). -/
structure FunctionDef where
  identifier : String
  parameter_types : List Ty
  return_type : Option Ty
deriving DecidableEq, Repr

/-- A lexical scope (source struct Scope, as constructed by
Checker::begin_new_scope). -/
structure Scope where
  variable_defs : List VariableDef
  function_defs : List FunctionDef
deriving DecidableEq, Repr

/-- Modelled from the spec: Scope::find_variable_def, defined in the
checking module root which is absent from the sources.  Searches the
scope's definitions for one with the given identifier. -/
def findVariableDef (s : Scope) (identifier : String) : Option VariableDef :=
  s.variable_defs.find? (fun d => d.identifier == identifier)

/-- Modelled from the spec: Scope::find_function_def, defined in the
checking module root which is absent from the sources.  Searches for a
definition with the given identifier whose parameter type list matches
the given argument types (exact match via the modelled type equality). -/
def findFunctionDef (s : Scope) (identifier : String) (params : List Ty) : Option FunctionDef :=
  s.function_defs.find? (fun d => d.identifier == identifier && teqList d.parameter_types params)

/-- Unchecked parsed type annotations as consumed by the checker
(source enum parsing::Type; the parsing module in the tree is an earlier
revision, so the shape is taken from the constructions in checker.rs,
dropping the source positions, which the checker never reads). -/
inductive PType
| Identifier (identifier : String)
| Array (inner : PType)
deriving DecidableEq, Repr

/-- Modelled from the spec: Type::from_parsing_type, defined in the
checking module root which is absent from the sources.  Resolves the
primitive names Num, Bool and Char, recursively resolves arrays, and
fails with NonexistentPrimitiveType for anything else (the failure
variant is pinned down by the check_stmts test in checker.rs). -/
def fromParsingType : PType → Except Failure Ty
| .Identifier "Num" => .ok .Num
| .Identifier "Bool" => .ok .Bool
| .Identifier "Char" => .ok .Char
| .Identifier other => .error (.NonexistentPrimitiveType other)
| .Array inner =>
  match fromParsingType inner with
  | .ok t => .ok (.Array t)
  | .error f => .error f

/-- A function parameter as consumed by the checker (source struct
parsing::Parameter, source position dropped). -/
structure Param where
  identifier : String
  param_type : PType
deriving DecidableEq, Repr

/-- Expressions as consumed by the checker (source enum
parsing::Expression, source positions dropped; the f64 of number
literals is modelled as Rat). -/
inductive Expression
| Equal (l r : Expression)
| GreaterThan (l r : Expression)
| LessThan (l r : Expression)
| Add (l r : Expression)
| Subtract (l r : Expression)
| Multiply (l r : Expression)
| Divide (l r : Expression)
| BooleanNot (e : Expression)
| UnaryMinus (e : Expression)
| NumberLiteral (value : Rat)
| StringLiteral (value : String)
| BooleanLiteral (value : Bool)
| CharLiteral (value : Char)
| Variable (identifier : String)
| FunctionCall (identifier : String) (args : List Expression)
| Array (exprs : List Expression)
deriving Repr

/-- Statements as consumed by the checker (source enum
parsing::Statement, as constructed in checker.rs). -/
inductive Statement
| Return (value : Option Expression)
| If (condition : Expression) (block : List Statement)
| While (condition : Expression) (block : List Statement)
| VariableDeclaration (var_type : PType) (identifier : String) (value : Option Expression)
| VariableAssignment (identifier : String) (assign_to : Expression)
| FunctionDefinition (identifier : String) (parameters : List Param)
    (return_type : Option PType) (body : List Statement)
deriving Repr

/-- The mutable state of the source Checker struct: scope stack (head is
the innermost scope), final instruction buffer, and the variable id
counter.  The statement iterator field is external input and is passed
separately. -/
structure Checker where
  scopes : List Scope
  final_ir : List Instruction
  var_id_counter : Nat
deriving DecidableEq, Repr

/-- Source Checker::begin_new_scope. -/
def beginNewScope (st : Checker) : Checker :=
  { st with scopes := ⟨[], []⟩ :: st.scopes }

/-- Source Checker::end_scope: pops the innermost scope and emits a
Deallocate instruction for each variable it held, in definition order. -/
def endScope (st : Checker) : Checker :=
  match st.scopes with
  | [] => st
  | s :: rest =>
    { st with
      scopes := rest,
      final_ir := st.final_ir ++ s.variable_defs.map (fun d => Instruction.Deallocate d.id) }

/-- Source Checker::variable_lookup: searches the scopes innermost
first (the source iterates the scope vector in reverse). -/
def variableLookup : List Scope → String → Except Failure VariableDef
| [], identifier => .error (.VariableNotInScope identifier)
| s :: rest, identifier =>
  match findVariableDef s identifier with
  | some d => .ok d
  | none => variableLookup rest identifier

/-- Source Checker::function_lookup: searches the scopes innermost
first for a function with the given identifier and parameter types. -/
def functionLookup : List Scope → String → List Ty → Except Failure FunctionDef
| [], identifier, params => .error (.FunctionNotInScope identifier params)
| s :: rest, identifier, params =>
  match findFunctionDef s identifier params with
  | some d => .ok d
  | none => functionLookup rest identifier params

/-- Source Checker::introduce_variable_to_inner_scope: mints the next
variable id, pushes the definition onto the innermost scope, and
increments the counter.  The source unwraps the innermost scope, which
always exists at its call sites; an empty scope stack leaves the scopes
untouched here. -/
def introduceVariableToInnerScope (st : Checker) (identifier : String) (var_type : Ty) :
    VarId × Checker :=
  let id := st.var_id_counter
  match st.scopes with
  | [] => (id, { st with var_id_counter := id + 1 })
  | s :: rest =>
    (id, { st with
            scopes := { s with variable_defs := s.variable_defs ++ [⟨identifier, var_type, id⟩] } :: rest,
            var_id_counter := id + 1 })

/-- Source Checker::introduce_function: pushes a function definition
onto the innermost scope (note: not onto a global table). -/
def introduceFunction (st : Checker) (identifier : String) (params : List Ty)
    (return_type : Option Ty) : Checker :=
  match st.scopes with
  | [] => st
  | s :: rest =>
    { st with
      scopes := { s with function_defs := s.function_defs ++ [⟨identifier, params, return_type⟩] } :: rest }

mutual

/-- Source Checker::check_expr.  Returns the inferred type together with
the instructions that the source appends to final_ir while checking the
expression.  The source helpers expect_expr_type and
verify_arithmetic_expr are inlined at their call sites: expect_expr_type
checks the sub-expression and compares its type against the expected
one, failing with UnexpectedType {expected, encountered}, and
verify_arithmetic_expr expects Num on both sides before appending the
operator instruction. -/
def checkExpr (scopes : List Scope) : Expression → Except Failure (Ty × List Instruction)
| .Variable identifier =>
  match variableLookup scopes identifier with
  | .ok d => .ok (d.var_type, [.Push (.Variable d.id)])
  | .error f => .error f
| .FunctionCall identifier args =>
  -- The source carries a TODO comment here and emits no call
  -- instruction: only the arguments' instructions are produced.
  match checkArgs scopes args with
  | .error f => .error f
  | .ok (arg_types, ir) =>
    match functionLookup scopes identifier arg_types with
    | .error f => .error f
    | .ok d =>
      match d.return_type with
      | some return_type => .ok (return_type, ir)
      | none => .error (.VoidFunctionInExpr identifier arg_types)
| .Add l r =>
  match checkExpr scopes l with
  | .error f => .error f
  | .ok (lt, irl) =>
    if teq lt .Num then
      match checkExpr scopes r with
      | .error f => .error f
      | .ok (rt, irr) =>
        if teq rt .Num then .ok (.Num, irl ++ irr ++ [.Add])
        else .error (.UnexpectedType .Num rt)
    else .error (.UnexpectedType .Num lt)
| .Subtract l r =>
  match checkExpr scopes l with
  | .error f => .error f
  | .ok (lt, irl) =>
    if teq lt .Num then
      match checkExpr scopes r with
      | .error f => .error f
      | .ok (rt, irr) =>
        if teq rt .Num then .ok (.Num, irl ++ irr ++ [.Subtract])
        else .error (.UnexpectedType .Num rt)
    else .error (.UnexpectedType .Num lt)
| .Multiply l r =>
  match checkExpr scopes l with
  | .error f => .error f
  | .ok (lt, irl) =>
    if teq lt .Num then
      match checkExpr scopes r with
      | .error f => .error f
      | .ok (rt, irr) =>
        if teq rt .Num then .ok (.Num, irl ++ irr ++ [.Multiply])
        else .error (.UnexpectedType .Num rt)
    else .error (.UnexpectedType .Num lt)
| .Divide l r =>
  match checkExpr scopes l with
  | .error f => .error f
  | .ok (lt, irl) =>
    if teq lt .Num then
      match checkExpr scopes r with
      | .error f => .error f
      | .ok (rt, irr) =>
        if teq rt .Num then .ok (.Num, irl ++ irr ++ [.Divide])
        else .error (.UnexpectedType .Num rt)
    else .error (.UnexpectedType .Num lt)
| .GreaterThan l r =>
  match checkExpr scopes l with
  | .error f => .error f
  | .ok (lt, irl) =>
    if teq lt .Num then
      match checkExpr scopes r with
      | .error f => .error f
      | .ok (rt, irr) =>
        if teq rt .Num then .ok (.Bool, irl ++ irr ++ [.GreaterThan])
        else .error (.UnexpectedType .Num rt)
    else .error (.UnexpectedType .Num lt)
| .LessThan l r =>
  match checkExpr scopes l with
  | .error f => .error f
  | .ok (lt, irl) =>
    if teq lt .Num then
      match checkExpr scopes r with
      | .error f => .error f
      | .ok (rt, irr) =>
        if teq rt .Num then .ok (.Bool, irl ++ irr ++ [.LessThan])
        else .error (.UnexpectedType .Num rt)
    else .error (.UnexpectedType .Num lt)
| .Equal l r =>
  match checkExpr scopes l with
  | .error f => .error f
  | .ok (left_type, irl) =>
    match checkExpr scopes r with
    | .error f => .error f
    | .ok (right_type, irr) =>
      if teq left_type right_type then .ok (.Bool, irl ++ irr ++ [.Equals])
      else .error (.UnexpectedType left_type right_type)
| .BooleanNot e =>
  -- expect_expr_type(expr, Bool); no Not instruction is appended.
  match checkExpr scopes e with
  | .error f => .error f
  | .ok (t, ir) =>
    if teq t .Bool then .ok (.Bool, ir)
    else .error (.UnexpectedType .Bool t)
| .UnaryMinus e =>
  -- expect_expr_type(expr, Num); no negation sequence is appended.
  match checkExpr scopes e with
  | .error f => .error f
  | .ok (t, ir) =>
    if teq t .Num then .ok (.Num, ir)
    else .error (.UnexpectedType .Num t)
| .Array exprs =>
  -- The contained type is Any for an empty literal and the first
  -- element's type otherwise; the element loop then runs over the whole
  -- list, so the first element is checked a second time.
  match exprs with
  | [] =>
    match checkArrayElems scopes .Any [] with
    | .error f => .error f
    | .ok ir => .ok (.Array .Any, ir)
  | e :: rest =>
    match checkExpr scopes e with
    | .error f => .error f
    | .ok (contained_type, ir0) =>
      match checkArrayElems scopes contained_type (e :: rest) with
      | .error f => .error f
      | .ok ir => .ok (.Array contained_type, ir0 ++ ir)
| .StringLiteral _ => .ok (.Array .Char, [])
| .NumberLiteral value => .ok (.Num, [.Push (.Constant (.Num value))])
| .BooleanLiteral value => .ok (.Bool, [.Push (.Constant (.Bool value))])
| .CharLiteral value => .ok (.Char, [.Push (.Constant (.Char value))])

/-- The argument loop of the FunctionCall arm of check_expr: checks each
argument left to right, collecting types and concatenating appended
instructions. -/
def checkArgs (scopes : List Scope) : List Expression → Except Failure (List Ty × List Instruction)
| [] => .ok ([], [])
| a :: rest =>
  match checkExpr scopes a with
  | .error f => .error f
  | .ok (t, ir) =>
    match checkArgs scopes rest with
    | .error f => .error f
    | .ok (ts, irs) => .ok (t :: ts, ir ++ irs)

/-- The element loop of the Array arm of check_expr: re-checks every
element (including the first) against the contained type, failing with
UnexpectedType {expected := contained, encountered} on a mismatch. -/
def checkArrayElems (scopes : List Scope) (contained : Ty) :
    List Expression → Except Failure (List Instruction)
| [] => .ok []
| e :: rest =>
  match checkExpr scopes e with
  | .error f => .error f
  | .ok (t, ir) =>
    if teq contained t then
      match checkArrayElems scopes contained rest with
      | .error f => .error f
      | .ok irs => .ok (ir ++ irs)
    else .error (.UnexpectedType contained t)

end

/-- The parameter loop at the head of Checker::check_block: resolves
each parameter's type, introduces it into the (freshly opened) innermost
scope, and collects the resolved types in order. -/
def introduceParams : List Param → Checker → Except Failure (List Ty × Checker)
| [], st => .ok ([], st)
| p :: rest, st =>
  match fromParsingType p.param_type with
  | .error f => .error f
  | .ok t =>
    let (_, st1) := introduceVariableToInnerScope st p.identifier t
    match introduceParams rest st1 with
    | .error f => .error f
    | .ok (ts, st2) => .ok (t :: ts, st2)

mutual

/-- Source Checker::check_stmt.  Returns the optional return type the
statement yields (Some for a value-carrying return statement, or a type
bubbled up from an if/while body) together with the updated state. -/
def checkStmt : Statement → Checker → Except Failure (Option Ty × Checker)
| .Return (some e), st =>
  match checkExpr st.scopes e with
  | .error f => .error f
  | .ok (value, ir) =>
    .ok (some value, { st with final_ir := st.final_ir ++ ir ++ [.ReturnValue] })
| .Return none, st =>
  .ok (none, { st with final_ir := st.final_ir ++ [.ReturnVoid] })
| .If condition block, st =>
  -- The source handles If and While in one arm carrying a TODO comment
  -- for the final IR instructions: only the condition's instructions
  -- (via expect_expr_type) and the block's instructions are appended;
  -- no labels or jumps are produced.
  match checkExpr st.scopes condition with
  | .error f => .error f
  | .ok (t, irc) =>
    if teq t .Bool then
      match checkBlock block [] { st with final_ir := st.final_ir ++ irc } with
      | .error f => .error f
      | .ok (block_ret_type, _, st2) => .ok (block_ret_type, st2)
    else .error (.UnexpectedType .Bool t)
| .While condition block, st =>
  match checkExpr st.scopes condition with
  | .error f => .error f
  | .ok (t, irc) =>
    if teq t .Bool then
      match checkBlock block [] { st with final_ir := st.final_ir ++ irc } with
      | .error f => .error f
      | .ok (block_ret_type, _, st2) => .ok (block_ret_type, st2)
    else .error (.UnexpectedType .Bool t)
| .VariableDeclaration var_type identifier value, st =>
  match fromParsingType var_type with
  | .error f => .error f
  | .ok checking_type =>
    -- If the variable is already defined in the innermost scope, a
    -- redeclaration must carry the same type and reuses the existing
    -- id; otherwise a fresh id is minted and an Allocate is emitted.
    let redeclared : Except Failure (VarId × Checker) :=
      match (match st.scopes with | [] => none | s :: _ => findVariableDef s identifier) with
      | some existing_def =>
        if teq checking_type existing_def.var_type then .ok (existing_def.id, st)
        else .error (.RedeclaredToDifferentType identifier existing_def.var_type checking_type)
      | none =>
        let (var_id, st1) := introduceVariableToInnerScope st identifier checking_type
        .ok (var_id, { st1 with final_ir := st1.final_ir ++ [.Allocate var_id] })
    match redeclared with
    | .error f => .error f
    | .ok (var_id, st1) =>
      match value with
      | some initial_value =>
        -- expect_expr_type(initial_value, checking_type), then Store.
        match checkExpr st1.scopes initial_value with
        | .error f => .error f
        | .ok (t, ir) =>
          if teq t checking_type then
            .ok (none, { st1 with final_ir := st1.final_ir ++ ir ++ [.Store var_id] })
          else .error (.UnexpectedType checking_type t)
      | none => .ok (none, st1)
| .VariableAssignment identifier assign_to, st =>
  match checkExpr st.scopes assign_to with
  | .error f => .error f
  | .ok (assign_to_type, ir) =>
    match variableLookup st.scopes identifier with
    | .error f => .error f
    | .ok var_def =>
      if teq var_def.var_type assign_to_type then
        .ok (none, { st with final_ir := st.final_ir ++ ir ++ [.Store var_def.id] })
      else .error (.UnexpectedType var_def.var_type assign_to_type)
| .FunctionDefinition identifier parameters return_type body, st =>
  -- The body is checked (and its scope closed) before the function is
  -- looked up for redefinition and before introduce_function runs.
  match checkBlock body parameters st with
  | .error f => .error f
  | .ok (optional_body_return_type, param_types, st1) =>
    match functionLookup st1.scopes identifier param_types with
    | .ok _ => .error (.RedefinedExistingFunction identifier param_types)
    | .error _ =>
      match return_type with
      | some parsing_return_type =>
        match fromParsingType parsing_return_type with
        | .error f => .error f
        | .ok expected_return_type =>
          match optional_body_return_type with
          | some body_return_type =>
            if teq body_return_type expected_return_type then
              .ok (none, introduceFunction st1 identifier param_types (some body_return_type))
            else .error (.UnexpectedType expected_return_type body_return_type)
          | none =>
            .error (.FunctionDoesNotReturn identifier param_types expected_return_type)
      | none =>
        match optional_body_return_type with
        | some body_return_type =>
          .error (.VoidFunctionReturnsValue identifier param_types body_return_type)
        | none => .ok (none, introduceFunction st1 identifier param_types none)

/-- Source Checker::check_block: opens a scope, introduces the
parameters, runs the statement loop with no return type established,
and closes the scope (emitting deallocations) on success. -/
def checkBlock (block : List Statement) (params : List Param) (st : Checker) :
    Except Failure (Option Ty × List Ty × Checker) :=
  let st1 := beginNewScope st
  match introduceParams params st1 with
  | .error f => .error f
  | .ok (param_types, st2) =>
    match checkStmtsLoop block none st2 with
    | .error f => .error f
    | .ok (ret_type, st3) => .ok (ret_type, param_types, endScope st3)

/-- The statement loop of Checker::check_block: threads the optional
established return type; a statement yielding a type either establishes
it (when none was established) or must match the established one, else
the loop fails with UnexpectedType {expected := current, encountered}. -/
def checkStmtsLoop : List Statement → Option Ty → Checker → Except Failure (Option Ty × Checker)
| [], ret_type, st => .ok (ret_type, st)
| stmt :: rest, ret_type, st =>
  match checkStmt stmt st with
  | .error f => .error f
  | .ok (res, st1) =>
    match res with
    | none => checkStmtsLoop rest ret_type st1
    | some new =>
      match ret_type with
      | none => checkStmtsLoop rest (some new) st1
      | some current =>
        if teq new current then checkStmtsLoop rest (some current) st1
        else .error (.UnexpectedType current new)

end

/-- Iterated array type: nest n t is Array applied n times to t.  Used
to state the arbitrary-nesting-depth part of the Any compatibility
rule. -/
def nest : Nat → Ty → Ty
| 0, t => t
| n + 1, t => .Array (nest n t)

/-- The top-level loop of Checker::execute, checking each statement of
the stream in turn and discarding any yielded return types. -/
def executeLoop : List Statement → Checker → Except Failure Checker
| [], st => .ok st
| stmt :: rest, st =>
  match checkStmt stmt st with
  | .error f => .error f
  | .ok (_, st1) => executeLoop rest st1

/-- Source Checker::execute (as driven by checker::input): begins the
program scope, checks the statement stream, ends the program scope and
yields the final instruction buffer. -/
def execute (stmts : List Statement) : Except Failure (List Instruction) :=
  match executeLoop stmts (beginNewScope ⟨[], [], 0⟩) with
  | .error f => .error f
  | .ok st => .ok (endScope st).final_ir

/-! Helper lemmas shared by the claim theorems. -/

/-- The modelled type equality is reflexive. -/
theorem teq_refl (t : Ty) : teq t t = true := by
  induction t with
  | Num => rfl
  | Bool => rfl
  | Char => rfl
  | Any => rfl
  | Array e ih => simpa [teq] using ih

/-- Function lookup fails with FunctionNotInScope when no scope holds a
function definition with the requested identifier. -/
theorem functionLookup_eq_error (scopes : List Scope) (name : String) (ts : List Ty)
    (h : ∀ sc ∈ scopes, ∀ fd ∈ sc.function_defs, fd.identifier ≠ name) :
    functionLookup scopes name ts = .error (.FunctionNotInScope name ts) := by
  induction scopes with
  | nil => rfl
  | cons s rest ih =>
    have hfind : findFunctionDef s name ts = none := by
      apply List.find?_eq_none.mpr
      intro fd hfd
      have := h s (by simp) fd hfd
      simp [this]
    simp only [functionLookup, hfind]
    exact ih (fun sc hsc => h sc (by simp [hsc]))

/-- The array element loop agrees with the argument loop when every
element type is compatible with the contained type: each element is
checked once and its instructions are appended once. -/
theorem checkArrayElems_eq_of_checkArgs (sc : List Scope) (t : Ty) :
    ∀ (es : List Expression) (ts : List Ty) (irs : List Instruction),
    checkArgs sc es = .ok (ts, irs) → (∀ u ∈ ts, teq t u = true) →
    checkArrayElems sc t es = .ok irs := by
  intro es
  induction es with
  | nil =>
    intro ts irs h hty
    simp only [checkArgs, Except.ok.injEq, Prod.mk.injEq] at h
    obtain ⟨hts, hirs⟩ := h
    subst hts
    subst hirs
    simp [checkArrayElems]
  | cons a rest ih =>
    intro ts irs h hty
    simp only [checkArgs] at h
    rcases ha : checkExpr sc a with f | ⟨u, ira⟩ <;> rw [ha] at h
    · simp at h
    rcases hrest : checkArgs sc rest with f | ⟨ts2, irs2⟩ <;> rw [hrest] at h
    · simp at h
    obtain ⟨hts, hirs⟩ : u :: ts2 = ts ∧ ira ++ irs2 = irs := by simpa using h
    have hu : teq t u = true := hty u (by rw [← hts]; simp)
    have hrest2 : checkArrayElems sc t rest = .ok irs2 :=
      ih ts2 irs2 hrest (fun v hv => hty v (by rw [← hts]; simp [hv]))
    simp [checkArrayElems, ha, hu, hrest2, hirs]

/-- The statement loop on a list of bare returns appends one ReturnVoid
per statement and establishes no return type. -/
theorem checkStmtsLoop_replicate_bare (n : Nat) :
    ∀ st : Checker,
    checkStmtsLoop (List.replicate n (.Return none)) none st
      = .ok (none, { st with final_ir := st.final_ir ++ List.replicate n .ReturnVoid }) := by
  induction n with
  | zero => intro st; simp [checkStmtsLoop]
  | succ m ih =>
    intro st
    simp only [List.replicate_succ, checkStmtsLoop, checkStmt]
    rw [ih]
    simp [List.append_assoc]

/-- Once a return type is established for a block, the statement loop
never changes it: a successful run returns exactly the established
type. -/
theorem checkStmtsLoop_some_persists :
    ∀ (stmts : List Statement) (cur : Ty) (st : Checker) (r : Option Ty) (st2 : Checker),
    checkStmtsLoop stmts (some cur) st = .ok (r, st2) → r = some cur := by
  intro stmts
  induction stmts with
  | nil =>
    intro cur st r st2 h
    simp only [checkStmtsLoop, Except.ok.injEq, Prod.mk.injEq] at h
    exact h.1.symm
  | cons s rest ih =>
    intro cur st r st2 h
    simp only [checkStmtsLoop] at h
    rcases hs : checkStmt s st with f | ⟨res, st1⟩ <;> simp only [hs] at h
    · simp at h
    rcases res with _ | new
    · exact ih cur st1 r st2 h
    rcases hteq : teq new cur <;> simp only [hteq] at h
    · simp at h
    · exact ih cur st1 r st2 (by simpa using h)

/-- Joint auxiliary statement for the expression checking functions:
none of them ever appends an Allocate instruction.  Proved by strong
induction on the size of the checked expression or expression list. -/
theorem noAllocateAux : ∀ n : Nat,
    (∀ (sc : List Scope) (e : Expression), sizeOf e ≤ n →
      ∀ t ir, checkExpr sc e = .ok (t, ir) → ∀ j, Instruction.Allocate j ∉ ir)
    ∧ (∀ (sc : List Scope) (l : List Expression), sizeOf l ≤ n →
      ∀ ts irs, checkArgs sc l = .ok (ts, irs) → ∀ j, Instruction.Allocate j ∉ irs)
    ∧ (∀ (sc : List Scope) (c : Ty) (l : List Expression), sizeOf l ≤ n →
      ∀ irs, checkArrayElems sc c l = .ok irs → ∀ j, Instruction.Allocate j ∉ irs) := by
  intro n
  induction n using Nat.strong_induction_on with
  | _ n IH =>
  refine ⟨?_, ?_, ?_⟩
  · intro sc e hn t ir h j
    cases e with
    | Equal l r =>
      simp only [checkExpr] at h
      rcases hl : checkExpr sc l with f | ⟨lt, irl⟩ <;> simp only [hl] at h
      · simp at h
      rcases hr : checkExpr sc r with f | ⟨rt, irr⟩ <;> simp only [hr] at h
      · simp at h
      rcases hq : teq lt rt <;> simp only [hq] at h <;> simp at h
      obtain ⟨_, hir⟩ := h
      have hszl : sizeOf l < n := by simp at hn; omega
      have hszr : sizeOf r < n := by simp at hn; omega
      rw [← hir]
      simp only [List.mem_append]
      push_neg
      exact ⟨(IH _ hszl).1 sc l le_rfl lt irl hl j, (IH _ hszr).1 sc r le_rfl rt irr hr j, by simp⟩
    | GreaterThan l r =>
      simp only [checkExpr] at h
      rcases hl : checkExpr sc l with f | ⟨lt, irl⟩ <;> simp only [hl] at h
      · simp at h
      rcases hq : teq lt .Num <;> simp only [hq] at h
      · simp at h
      rcases hr : checkExpr sc r with f | ⟨rt, irr⟩ <;> simp only [hr] at h
      · simp at h
      rcases hq2 : teq rt .Num <;> simp only [hq2] at h <;> simp at h
      obtain ⟨_, hir⟩ := h
      have hszl : sizeOf l < n := by simp at hn; omega
      have hszr : sizeOf r < n := by simp at hn; omega
      rw [← hir]
      simp only [List.mem_append]
      push_neg
      exact ⟨(IH _ hszl).1 sc l le_rfl lt irl hl j, (IH _ hszr).1 sc r le_rfl rt irr hr j, by simp⟩
    | LessThan l r =>
      simp only [checkExpr] at h
      rcases hl : checkExpr sc l with f | ⟨lt, irl⟩ <;> simp only [hl] at h
      · simp at h
      rcases hq : teq lt .Num <;> simp only [hq] at h
      · simp at h
      rcases hr : checkExpr sc r with f | ⟨rt, irr⟩ <;> simp only [hr] at h
      · simp at h
      rcases hq2 : teq rt .Num <;> simp only [hq2] at h <;> simp at h
      obtain ⟨_, hir⟩ := h
      have hszl : sizeOf l < n := by simp at hn; omega
      have hszr : sizeOf r < n := by simp at hn; omega
      rw [← hir]
      simp only [List.mem_append]
      push_neg
      exact ⟨(IH _ hszl).1 sc l le_rfl lt irl hl j, (IH _ hszr).1 sc r le_rfl rt irr hr j, by simp⟩
    | Add l r =>
      simp only [checkExpr] at h
      rcases hl : checkExpr sc l with f | ⟨lt, irl⟩ <;> simp only [hl] at h
      · simp at h
      rcases hq : teq lt .Num <;> simp only [hq] at h
      · simp at h
      rcases hr : checkExpr sc r with f | ⟨rt, irr⟩ <;> simp only [hr] at h
      · simp at h
      rcases hq2 : teq rt .Num <;> simp only [hq2] at h <;> simp at h
      obtain ⟨_, hir⟩ := h
      have hszl : sizeOf l < n := by simp at hn; omega
      have hszr : sizeOf r < n := by simp at hn; omega
      rw [← hir]
      simp only [List.mem_append]
      push_neg
      exact ⟨(IH _ hszl).1 sc l le_rfl lt irl hl j, (IH _ hszr).1 sc r le_rfl rt irr hr j, by simp⟩
    | Subtract l r =>
      simp only [checkExpr] at h
      rcases hl : checkExpr sc l with f | ⟨lt, irl⟩ <;> simp only [hl] at h
      · simp at h
      rcases hq : teq lt .Num <;> simp only [hq] at h
      · simp at h
      rcases hr : checkExpr sc r with f | ⟨rt, irr⟩ <;> simp only [hr] at h
      · simp at h
      rcases hq2 : teq rt .Num <;> simp only [hq2] at h <;> simp at h
      obtain ⟨_, hir⟩ := h
      have hszl : sizeOf l < n := by simp at hn; omega
      have hszr : sizeOf r < n := by simp at hn; omega
      rw [← hir]
      simp only [List.mem_append]
      push_neg
      exact ⟨(IH _ hszl).1 sc l le_rfl lt irl hl j, (IH _ hszr).1 sc r le_rfl rt irr hr j, by simp⟩
    | Multiply l r =>
      simp only [checkExpr] at h
      rcases hl : checkExpr sc l with f | ⟨lt, irl⟩ <;> simp only [hl] at h
      · simp at h
      rcases hq : teq lt .Num <;> simp only [hq] at h
      · simp at h
      rcases hr : checkExpr sc r with f | ⟨rt, irr⟩ <;> simp only [hr] at h
      · simp at h
      rcases hq2 : teq rt .Num <;> simp only [hq2] at h <;> simp at h
      obtain ⟨_, hir⟩ := h
      have hszl : sizeOf l < n := by simp at hn; omega
      have hszr : sizeOf r < n := by simp at hn; omega
      rw [← hir]
      simp only [List.mem_append]
      push_neg
      exact ⟨(IH _ hszl).1 sc l le_rfl lt irl hl j, (IH _ hszr).1 sc r le_rfl rt irr hr j, by simp⟩
    | Divide l r =>
      simp only [checkExpr] at h
      rcases hl : checkExpr sc l with f | ⟨lt, irl⟩ <;> simp only [hl] at h
      · simp at h
      rcases hq : teq lt .Num <;> simp only [hq] at h
      · simp at h
      rcases hr : checkExpr sc r with f | ⟨rt, irr⟩ <;> simp only [hr] at h
      · simp at h
      rcases hq2 : teq rt .Num <;> simp only [hq2] at h <;> simp at h
      obtain ⟨_, hir⟩ := h
      have hszl : sizeOf l < n := by simp at hn; omega
      have hszr : sizeOf r < n := by simp at hn; omega
      rw [← hir]
      simp only [List.mem_append]
      push_neg
      exact ⟨(IH _ hszl).1 sc l le_rfl lt irl hl j, (IH _ hszr).1 sc r le_rfl rt irr hr j, by simp⟩
    | BooleanNot e1 =>
      simp only [checkExpr] at h
      rcases he : checkExpr sc e1 with f | ⟨t1, ir1⟩ <;> simp only [he] at h
      · simp at h
      rcases hq : teq t1 .Bool <;> simp only [hq] at h <;> simp at h
      obtain ⟨_, hir⟩ := h
      have hsz : sizeOf e1 < n := by simp at hn; omega
      rw [← hir]
      exact (IH _ hsz).1 sc e1 le_rfl t1 ir1 he j
    | UnaryMinus e1 =>
      simp only [checkExpr] at h
      rcases he : checkExpr sc e1 with f | ⟨t1, ir1⟩ <;> simp only [he] at h
      · simp at h
      rcases hq : teq t1 .Num <;> simp only [hq] at h <;> simp at h
      obtain ⟨_, hir⟩ := h
      have hsz : sizeOf e1 < n := by simp at hn; omega
      rw [← hir]
      exact (IH _ hsz).1 sc e1 le_rfl t1 ir1 he j
    | NumberLiteral v =>
      simp only [checkExpr] at h
      obtain ⟨_, hir⟩ := by simpa using h
      rw [← hir]; simp
    | StringLiteral v =>
      simp only [checkExpr] at h
      obtain ⟨_, hir⟩ := by simpa using h
      subst hir; simp
    | BooleanLiteral v =>
      simp only [checkExpr] at h
      obtain ⟨_, hir⟩ := by simpa using h
      rw [← hir]; simp
    | CharLiteral v =>
      simp only [checkExpr] at h
      obtain ⟨_, hir⟩ := by simpa using h
      rw [← hir]; simp
    | Variable ident =>
      simp only [checkExpr] at h
      rcases hv : variableLookup sc ident with f | d <;> simp only [hv] at h <;> simp at h
      obtain ⟨_, hir⟩ := h
      rw [← hir]; simp
    | FunctionCall ident args =>
      simp only [checkExpr] at h
      rcases ha : checkArgs sc args with f | ⟨ats, irs⟩ <;> simp only [ha] at h
      · simp at h
      rcases hf : functionLookup sc ident ats with f | d <;> simp only [hf] at h
      · simp at h
      rcases hrt : d.return_type with _ | rt <;> simp only [hrt] at h <;> simp at h
      obtain ⟨_, hir⟩ := h
      have hsz : sizeOf args < n := by simp at hn; omega
      rw [← hir]
      exact (IH _ hsz).2.1 sc args le_rfl ats irs ha j
    | Array exprs =>
      cases exprs with
      | nil =>
        simp only [checkExpr, checkArrayElems] at h
        obtain ⟨_, hir⟩ := by simpa using h
        subst hir; simp
      | cons e1 rest =>
        simp only [checkExpr] at h
        rcases he : checkExpr sc e1 with f | ⟨ct, ir0⟩ <;> simp only [he] at h
        · simp at h
        rcases hl : checkArrayElems sc ct (e1 :: rest) with f | ir1 <;> simp only [hl] at h <;> simp at h
        obtain ⟨_, hir⟩ := h
        have hsz0 : sizeOf e1 < n := by simp at hn; omega
        have hsz1 : sizeOf (e1 :: rest) < n := by simp at hn; simp; omega
        rw [← hir]
        simp only [List.mem_append]
        push_neg
        exact ⟨(IH _ hsz0).1 sc e1 le_rfl ct ir0 he j,
          (IH _ hsz1).2.2 sc ct (e1 :: rest) le_rfl ir1 hl j⟩
  · intro sc l hn ts irs h j
    cases l with
    | nil =>
      simp only [checkArgs] at h
      obtain ⟨_, hir⟩ := by simpa using h
      subst hir; simp
    | cons a rest =>
      simp only [checkArgs] at h
      rcases ha : checkExpr sc a with f | ⟨t1, ir1⟩ <;> simp only [ha] at h
      · simp at h
      rcases hr : checkArgs sc rest with f | ⟨ts2, irs2⟩ <;> simp only [hr] at h <;> simp at h
      obtain ⟨_, hir⟩ := h
      have hsza : sizeOf a < n := by simp at hn; omega
      have hszr : sizeOf rest < n := by simp at hn; omega
      rw [← hir]
      simp only [List.mem_append]
      push_neg
      exact ⟨(IH _ hsza).1 sc a le_rfl t1 ir1 ha j,
        (IH _ hszr).2.1 sc rest le_rfl ts2 irs2 hr j⟩
  · intro sc c l hn irs h j
    cases l with
    | nil =>
      simp only [checkArrayElems] at h
      have hir : irs = [] := by simpa using h
      subst hir; simp
    | cons a rest =>
      simp only [checkArrayElems] at h
      rcases ha : checkExpr sc a with f | ⟨t1, ir1⟩ <;> simp only [ha] at h
      · simp at h
      rcases hq : teq c t1 <;> simp only [hq] at h
      · simp at h
      rcases hr : checkArrayElems sc c rest with f | irs2 <;> simp only [hr] at h <;> simp at h
      have hsza : sizeOf a < n := by simp at hn; omega
      have hszr : sizeOf rest < n := by simp at hn; omega
      rw [← h]
      simp only [List.mem_append]
      push_neg
      exact ⟨(IH _ hsza).1 sc a le_rfl t1 ir1 ha j,
        (IH _ hszr).2.2 sc c rest le_rfl irs2 hr j⟩

/-- Expression checking never appends an Allocate instruction. -/
theorem checkExpr_no_allocate (sc : List Scope) (e : Expression) (t : Ty)
    (ir : List Instruction) (h : checkExpr sc e = .ok (t, ir)) :
    ∀ j, Instruction.Allocate j ∉ ir :=
  (noAllocateAux (sizeOf e)).1 sc e le_rfl t ir h

/-- Comparing Any on the left always succeeds. -/
theorem teq_any_left (t : Ty) : teq .Any t = true := by cases t <;> rfl

/-- Comparing Any on the right always succeeds. -/
theorem teq_any_right (t : Ty) : teq t .Any = true := by cases t <;> rfl

/-! Claim theorems. -/

/-- C1 counterexample: the claim says a function whose body calls itself
with argument types matching its own parameter types checks successfully
because the signature is registered before the body; on the concrete
definition of fact over Num, checking instead fails with the
function-not-found error FunctionNotInScope. -/
theorem c1_selfcall_counterexample :
    checkStmt
      (.FunctionDefinition "fact" [⟨"n", .Identifier "Num"⟩] (some (.Identifier "Num"))
        [.Return (some (.FunctionCall "fact" [.Variable "n"]))])
      ⟨[⟨[], []⟩], [], 0⟩
      = .error (.FunctionNotInScope "fact" [.Num]) := by
  simp [checkStmt, checkBlock, checkStmtsLoop, introduceParams, beginNewScope, endScope,
    checkExpr, checkArgs, fromParsingType, introduceVariableToInnerScope,
    variableLookup, findVariableDef, functionLookup, findFunctionDef, teqList, List.find?]

/-- C1 amended: checking a function definition checks the body before
the signature is registered, so a self-call whose argument types match
the parameter types resolves only against previously registered
functions: whenever no scope holds a function named fact, checking the
recursive definition of fact fails with FunctionNotInScope. -/
theorem c1_function_registered_only_after_body (st : Checker)
    (h : ∀ sc ∈ st.scopes, ∀ fd ∈ sc.function_defs, fd.identifier ≠ "fact") :
    checkStmt
      (.FunctionDefinition "fact" [⟨"n", .Identifier "Num"⟩] (some (.Identifier "Num"))
        [.Return (some (.FunctionCall "fact" [.Variable "n"]))]) st
      = .error (.FunctionNotInScope "fact" [.Num]) := by
  have hlk : functionLookup st.scopes "fact" [Ty.Num]
      = .error (.FunctionNotInScope "fact" [Ty.Num]) :=
    functionLookup_eq_error st.scopes "fact" [Ty.Num] h
  simp [checkStmt, checkBlock, checkStmtsLoop, introduceParams, beginNewScope,
    checkExpr, checkArgs, fromParsingType, introduceVariableToInnerScope,
    variableLookup, findVariableDef, functionLookup, findFunctionDef, hlk, List.find?]

/-- C1 witness: the amended theorem applied at a state whose only scope
holds one unrelated function. -/
theorem c1_function_registered_only_after_body_witness :
    checkStmt
      (.FunctionDefinition "fact" [⟨"n", .Identifier "Num"⟩] (some (.Identifier "Num"))
        [.Return (some (.FunctionCall "fact" [.Variable "n"]))])
      ⟨[⟨[], [⟨"other", [], none⟩]⟩], [], 5⟩
      = .error (.FunctionNotInScope "fact" [.Num]) :=
  c1_function_registered_only_after_body ⟨[⟨[], [⟨"other", [], none⟩]⟩], [], 5⟩ (by decide)

/-- C2: checking a function-call expression appends each argument's
instructions left to right but, contrary to the claim, appends no call
instruction at all (the source carries a TODO there and its FunctionDef
has no id to key one by): calling f of one Num argument with f in scope
yields only the pushed argument, with no CallExpectingValue or
CallExpectingVoid anywhere in the appended list. -/
theorem c2_call_emits_only_argument_ir :
    checkExpr [⟨[], [⟨"f", [.Num], some .Num⟩]⟩] (.FunctionCall "f" [.NumberLiteral 1])
      = .ok (.Num, [.Push (.Constant (.Num 1))])
    ∧ ∀ i : Nat,
      Instruction.CallExpectingValue i ∉ [Instruction.Push (Value.Constant (ConstValue.Num 1))]
      ∧ Instruction.CallExpectingVoid i ∉ [Instruction.Push (Value.Constant (ConstValue.Num 1))] := by
  constructor
  · simp [checkExpr, checkArgs, functionLookup, findFunctionDef, teqList, teq, List.find?]
  · intro i
    simp

/-- C3: checking a while statement whose condition checks to Bool
appends, contrary to the claimed jump-label shape, only the condition's
instructions followed by the body's (the source If/While arm carries a
TODO for the final IR): for while true with an empty body the appended
IR is a single push of true, containing no Jump, JumpIfTrue or Label. -/
theorem c3_while_emits_no_labels_or_jumps :
    checkStmt (.While (.BooleanLiteral true) []) ⟨[⟨[], []⟩], [], 0⟩
      = .ok (none, ⟨[⟨[], []⟩], [.Push (.Constant (.Bool true))], 0⟩)
    ∧ ∀ l : Nat,
      Instruction.Jump l ∉ [Instruction.Push (Value.Constant (ConstValue.Bool true))]
      ∧ Instruction.JumpIfTrue l ∉ [Instruction.Push (Value.Constant (ConstValue.Bool true))]
      ∧ Instruction.Label l ∉ [Instruction.Push (Value.Constant (ConstValue.Bool true))] := by
  constructor
  · simp [checkStmt, checkExpr, checkBlock, checkStmtsLoop, introduceParams,
      beginNewScope, endScope, teq]
  · intro l
    simp

/-- C4: redeclaring a variable in the innermost scope fails with
RedeclaredToDifferentType (expected the existing type, encountered the
new one) when the types differ, and when they agree the existing id is
reused: the state is unchanged for a bare redeclaration, and with an
initializer the appended instructions are exactly the initializer's own
instructions followed by a Store to the existing id, the id counter and
scopes untouched and no Allocate among the appended instructions. -/
theorem c4_redeclaration_rules (st : Checker) (s : Scope) (rest : List Scope)
    (pt : PType) (name : String) (t2 : Ty) (d : VariableDef)
    (hscopes : st.scopes = s :: rest)
    (hfind : findVariableDef s name = some d)
    (hres : fromParsingType pt = .ok t2) :
    (teq t2 d.var_type = false →
      checkStmt (.VariableDeclaration pt name none) st
        = .error (.RedeclaredToDifferentType name d.var_type t2))
    ∧ (teq t2 d.var_type = true →
      checkStmt (.VariableDeclaration pt name none) st = .ok (none, st))
    ∧ (∀ (e : Expression) (te : Ty) (ire : List Instruction),
      teq t2 d.var_type = true →
      checkExpr st.scopes e = .ok (te, ire) → teq te t2 = true →
      checkStmt (.VariableDeclaration pt name (some e)) st
        = .ok (none, { st with final_ir := st.final_ir ++ ire ++ [.Store d.id] })
      ∧ ∀ j, Instruction.Allocate j ∉ ire) := by
  refine ⟨?_, ?_, ?_⟩
  · intro hne
    simp [checkStmt, hres, hscopes, hfind, hne]
  · intro heq
    simp [checkStmt, hres, hscopes, hfind, heq]
  · intro e te ire heq he hte
    refine ⟨?_, checkExpr_no_allocate st.scopes e te ire he⟩
    rw [hscopes] at he
    simp [checkStmt, hres, hscopes, hfind, heq, he, hte]

/-- C4 witness: a scope holding x at type Num with id 0; redeclaring at
Char fails, redeclaring at Num without initializer leaves the state
untouched, and redeclaring at Num with initializer 2 stores to id 0. -/
theorem c4_redeclaration_rules_witness :
    checkStmt (.VariableDeclaration (.Identifier "Char") "x" none)
        ⟨[⟨[⟨"x", .Num, 0⟩], []⟩], [], 1⟩
      = .error (.RedeclaredToDifferentType "x" .Num .Char)
    ∧ checkStmt (.VariableDeclaration (.Identifier "Num") "x" none)
        ⟨[⟨[⟨"x", .Num, 0⟩], []⟩], [], 1⟩
      = .ok (none, ⟨[⟨[⟨"x", .Num, 0⟩], []⟩], [], 1⟩)
    ∧ checkStmt (.VariableDeclaration (.Identifier "Num") "x" (some (.NumberLiteral 2)))
        ⟨[⟨[⟨"x", .Num, 0⟩], []⟩], [], 1⟩
      = .ok (none, ⟨[⟨[⟨"x", .Num, 0⟩], []⟩],
          [.Push (.Constant (.Num 2)), .Store 0], 1⟩) := by
  have base := c4_redeclaration_rules ⟨[⟨[⟨"x", .Num, 0⟩], []⟩], [], 1⟩
    ⟨[⟨"x", .Num, 0⟩], []⟩ [] (.Identifier "Char") "x" .Char ⟨"x", .Num, 0⟩
    rfl (by decide) rfl
  have base2 := c4_redeclaration_rules ⟨[⟨[⟨"x", .Num, 0⟩], []⟩], [], 1⟩
    ⟨[⟨"x", .Num, 0⟩], []⟩ [] (.Identifier "Num") "x" .Num ⟨"x", .Num, 0⟩
    rfl (by decide) rfl
  refine ⟨base.1 (by decide), base2.2.1 (by decide), ?_⟩
  have h3 := (base2.2.2 (.NumberLiteral 2) .Num [.Push (.Constant (.Num 2))]
    (by decide) (by simp [checkExpr]) (by decide)).1
  simpa using h3

/-- C5: the modelled type equality treats Array(Any), the type of an
empty array literal, as equal to Array(T) for every T in both
directions and at arbitrary nesting depth, so declaring a variable of
type Array(Array(Num)) initialised with the literal of an empty inner
array next to a singleton 1.5 succeeds, while initialising a Bool
variable with an empty array literal fails with UnexpectedType
expecting Bool and encountering Array(Any). -/
theorem c5_array_any_compatibility :
    (∀ t : Ty, teq (.Array .Any) (.Array t) = true ∧ teq (.Array t) (.Array .Any) = true)
    ∧ (∀ (n : Nat) (t : Ty),
        teq (nest (n + 1) .Any) (nest (n + 1) t) = true
        ∧ teq (nest (n + 1) t) (nest (n + 1) .Any) = true)
    ∧ checkStmt
        (.VariableDeclaration (.Array (.Array (.Identifier "Num"))) "wow"
          (some (.Array [.Array [], .Array [.NumberLiteral 1.5]])))
        ⟨[⟨[], []⟩], [], 0⟩
      = .ok (none, ⟨[⟨[⟨"wow", .Array (.Array .Num), 0⟩], []⟩],
          [.Allocate 0, .Push (.Constant (.Num 1.5)), .Push (.Constant (.Num 1.5)), .Store 0], 1⟩)
    ∧ checkStmt (.VariableDeclaration (.Identifier "Bool") "bad" (some (.Array [])))
        ⟨[⟨[], []⟩], [], 0⟩
      = .error (.UnexpectedType .Bool (.Array .Any)) := by
  refine ⟨?_, ?_, ?_, ?_⟩
  · intro t
    exact ⟨by simp [teq, teq_any_left], by simp [teq, teq_any_right]⟩
  · intro n t
    induction n with
    | zero => exact ⟨by simp [nest, teq, teq_any_left], by simp [nest, teq, teq_any_right]⟩
    | succ m ih =>
      refine ⟨?_, ?_⟩
      · have := ih.1
        simp only [nest, teq] at this ⊢
        exact this
      · have := ih.2
        simp only [nest, teq] at this ⊢
        exact this
  · simp [checkStmt, checkExpr, checkArrayElems, fromParsingType, findVariableDef,
      introduceVariableToInnerScope, teq, List.find?]
  · simp [checkStmt, checkExpr, checkArrayElems, fromParsingType, findVariableDef,
      introduceVariableToInnerScope, teq, List.find?]

/-- C6: within a block, the first value-carrying return type becomes
the established block return type (the loop switches from none to some
u, and a successful loop run from some cur returns exactly some cur),
any later value-carrying return of a different type fails the block
with UnexpectedType expecting the established type and encountering the
new one, and if/while statements bubble their body's return type up to
the enclosing block's loop. -/
theorem c6_block_return_unification :
    (∀ (stmts : List Statement) (cur : Ty) (st : Checker) (r : Option Ty) (st2 : Checker),
      checkStmtsLoop stmts (some cur) st = .ok (r, st2) → r = some cur)
    ∧ (∀ (stmt : Statement) (rest : List Statement) (cur u : Ty) (st st1 : Checker),
      checkStmt stmt st = .ok (some u, st1) → teq u cur = false →
      checkStmtsLoop (stmt :: rest) (some cur) st = .error (.UnexpectedType cur u))
    ∧ (∀ (stmt : Statement) (rest : List Statement) (u : Ty) (st st1 : Checker),
      checkStmt stmt st = .ok (some u, st1) →
      checkStmtsLoop (stmt :: rest) none st = checkStmtsLoop rest (some u) st1)
    ∧ (∀ (cond : Expression) (block : List Statement) (st : Checker) (ct : Ty)
        (irc : List Instruction) (r : Option Ty) (pts : List Ty) (st2 : Checker),
      checkExpr st.scopes cond = .ok (ct, irc) → teq ct .Bool = true →
      checkBlock block [] { st with final_ir := st.final_ir ++ irc } = .ok (r, pts, st2) →
      checkStmt (.If cond block) st = .ok (r, st2)
      ∧ checkStmt (.While cond block) st = .ok (r, st2)) := by
  refine ⟨checkStmtsLoop_some_persists, ?_, ?_, ?_⟩
  · intro stmt rest cur u st st1 h hq
    simp [checkStmtsLoop, h, hq]
  · intro stmt rest u st st1 h
    simp [checkStmtsLoop, h]
  · intro cond block st ct irc r pts st2 hc hq hb
    constructor <;> simp [checkStmt, hc, hq, hb]

/-- C6 witness: with Char established, a Num-valued return fails the
loop with UnexpectedType Char Num. -/
theorem c6_block_return_unification_witness :
    checkStmtsLoop [.Return (some (.NumberLiteral 1))] (some .Char) ⟨[], [], 0⟩
      = .error (.UnexpectedType .Char .Num) :=
  c6_block_return_unification.2.1 (.Return (some (.NumberLiteral 1))) [] .Char .Num
    ⟨[], [], 0⟩ ⟨[], [.Push (.Constant (.Num 1)), .ReturnValue], 0⟩
    (by simp [checkStmt, checkExpr]) (by decide)

/-- C7 counterexample: the claim says unary minus lowers to a push of
zero, the operand, and a subtract; on the concrete operand 1 the
appended IR is only the operand's push, which differs from the claimed
sequence and contains no Subtract at all. -/
theorem c7_unary_minus_counterexample :
    checkExpr [⟨[], []⟩] (.UnaryMinus (.NumberLiteral 1))
      = .ok (.Num, [.Push (.Constant (.Num 1))])
    ∧ [Instruction.Push (Value.Constant (ConstValue.Num 1))]
      ≠ [Instruction.Push (Value.Constant (ConstValue.Num 0)),
          Instruction.Push (Value.Constant (ConstValue.Num 1)), Instruction.Subtract]
    ∧ Instruction.Subtract ∉ [Instruction.Push (Value.Constant (ConstValue.Num 1))] := by
  refine ⟨?_, by simp, by simp⟩
  simp [checkExpr, teq]

/-- C7 amended: for every unary-minus expression whose operand checks
to a type equal to Num, checking yields Num and the appended IR is
exactly the operand's instructions; no zero push, subtract, or negate
sequence is emitted. -/
theorem c7_unary_minus_appends_operand_only (sc : List Scope) (e : Expression)
    (t : Ty) (ir : List Instruction)
    (h : checkExpr sc e = .ok (t, ir)) (hq : teq t .Num = true) :
    checkExpr sc (.UnaryMinus e) = .ok (.Num, ir) := by
  simp [checkExpr, h, hq]

/-- C7 witness: the amended theorem at the operand 2. -/
theorem c7_unary_minus_appends_operand_only_witness :
    checkExpr [] (.UnaryMinus (.NumberLiteral 2)) = .ok (.Num, [.Push (.Constant (.Num 2))]) :=
  c7_unary_minus_appends_operand_only [] (.NumberLiteral 2) .Num
    [.Push (.Constant (.Num 2))] (by simp [checkExpr]) (by decide)

/-- C8 counterexample: the claim says a function definition nested in
another function's body fails with NestedFunctions; checking the
concrete program defining g inside f does not produce that error. -/
theorem c8_nested_function_counterexample :
    checkStmt (.FunctionDefinition "f" [] none [.FunctionDefinition "g" [] none []])
      ⟨[⟨[], []⟩], [], 0⟩
      ≠ .error (.NestedFunctions "g") := by
  have h : checkStmt (.FunctionDefinition "f" [] none [.FunctionDefinition "g" [] none []])
      ⟨[⟨[], []⟩], [], 0⟩
      = .ok (none, ⟨[⟨[], [⟨"f", [], none⟩]⟩], [], 0⟩) := by
    simp [checkStmt, checkBlock, checkStmtsLoop, introduceParams, beginNewScope, endScope,
      functionLookup, findFunctionDef, introduceFunction, teqList, List.find?]
  simp [h]

/-- C8 amended: a nested function definition is not rejected; it is
checked like any other statement, registered in the enclosing body
scope, and discarded when that scope ends, so checking the outer
definition succeeds and leaves only the outer function registered. -/
theorem c8_nested_function_checks_ok :
    checkStmt (.FunctionDefinition "f" [] none [.FunctionDefinition "g" [] none []])
      ⟨[⟨[], []⟩], [], 0⟩
      = .ok (none, ⟨[⟨[], [⟨"f", [], none⟩]⟩], [], 0⟩) := by
  simp [checkStmt, checkBlock, checkStmtsLoop, introduceParams, beginNewScope, endScope,
    functionLookup, findFunctionDef, introduceFunction, teqList, List.find?]

/-- C9: for a non-empty array literal whose head checks to t with
instructions ir0 and whose remaining elements all check (once each,
concatenating to irs) to types compatible with t, checking the literal
yields Array t and appends the head's instructions twice, then every
other element's instructions once. -/
theorem c9_array_first_element_checked_twice (sc : List Scope) (e : Expression)
    (es : List Expression) (t : Ty) (ir0 : List Instruction)
    (ts : List Ty) (irs : List Instruction)
    (h0 : checkExpr sc e = .ok (t, ir0))
    (hes : checkArgs sc es = .ok (ts, irs))
    (hty : ∀ u ∈ ts, teq t u = true) :
    checkExpr sc (.Array (e :: es)) = .ok (.Array t, ir0 ++ ir0 ++ irs) := by
  have helems : checkArrayElems sc t (e :: es) = .ok (ir0 ++ irs) := by
    have hrest := checkArrayElems_eq_of_checkArgs sc t es ts irs hes hty
    simp [checkArrayElems, h0, teq_refl, hrest]
  simp [checkExpr, h0, helems]

/-- C9 witness: the literal with elements 1 and 2 pushes 1 twice then
2 once. -/
theorem c9_array_first_element_checked_twice_witness :
    checkExpr [] (.Array [.NumberLiteral 1, .NumberLiteral 2])
      = .ok (.Array .Num,
          [.Push (.Constant (.Num 1)), .Push (.Constant (.Num 1)), .Push (.Constant (.Num 2))]) := by
  have h := c9_array_first_element_checked_twice [] (.NumberLiteral 1) [.NumberLiteral 2]
    .Num [.Push (.Constant (.Num 1))] [.Num] [.Push (.Constant (.Num 2))]
    (by simp [checkExpr]) (by simp [checkExpr, checkArgs]) (by decide)
  simpa using h

/-- C10: a bare return yields no type and is exempt from block return
unification: a block holding a value-carrying return of type t and a
bare return, in either order, checks successfully with block return
type t, and a block of only bare returns yields no return type. -/
theorem c10_bare_return_exempt (st : Checker) :
    (∀ (e : Expression) (t : Ty) (ire : List Instruction),
      checkExpr ((⟨[], []⟩ : Scope) :: st.scopes) e = .ok (t, ire) →
      checkBlock [.Return (some e), .Return none] [] st
        = .ok (some t, [], { st with final_ir := st.final_ir ++ ire ++ [.ReturnValue, .ReturnVoid] }))
    ∧ (∀ (e : Expression) (t : Ty) (ire : List Instruction),
      checkExpr ((⟨[], []⟩ : Scope) :: st.scopes) e = .ok (t, ire) →
      checkBlock [.Return none, .Return (some e)] [] st
        = .ok (some t, [], { st with final_ir := st.final_ir ++ [.ReturnVoid] ++ ire ++ [.ReturnValue] }))
    ∧ (∀ n : Nat,
      checkBlock (List.replicate n (.Return none)) [] st
        = .ok (none, [], { st with final_ir := st.final_ir ++ List.replicate n .ReturnVoid })) := by
  refine ⟨?_, ?_, ?_⟩
  · intro e t ire he
    simp [checkBlock, beginNewScope, introduceParams, checkStmtsLoop, checkStmt,
      endScope, he, List.append_assoc]
  · intro e t ire he
    simp [checkBlock, beginNewScope, introduceParams, checkStmtsLoop, checkStmt,
      endScope, he, List.append_assoc]
  · intro n
    simp only [checkBlock, beginNewScope, introduceParams]
    rw [checkStmtsLoop_replicate_bare]
    simp [endScope]

/-- C10 witness: the three parts at a concrete state with the
value-carrying return pushing true. -/
theorem c10_bare_return_exempt_witness :
    checkBlock [.Return (some (.BooleanLiteral true)), .Return none] [] ⟨[], [], 0⟩
      = .ok (some .Bool, [],
          ⟨[], [.Push (.Constant (.Bool true)), .ReturnValue, .ReturnVoid], 0⟩)
    ∧ checkBlock [.Return none, .Return (some (.BooleanLiteral true))] [] ⟨[], [], 0⟩
      = .ok (some .Bool, [],
          ⟨[], [.ReturnVoid, .Push (.Constant (.Bool true)), .ReturnValue], 0⟩)
    ∧ checkBlock (List.replicate 2 (.Return none)) [] ⟨[], [], 0⟩
      = .ok (none, [], ⟨[], [.ReturnVoid, .ReturnVoid], 0⟩) := by
  have base := c10_bare_return_exempt ⟨[], [], 0⟩
  refine ⟨?_, ?_, ?_⟩
  · have h := base.1 (.BooleanLiteral true) .Bool [.Push (.Constant (.Bool true))]
      (by simp [checkExpr])
    simpa using h
  · have h := base.2.1 (.BooleanLiteral true) .Bool [.Push (.Constant (.Bool true))]
      (by simp [checkExpr])
    simpa using h
  · have h := base.2.2 2
    simpa [List.replicate] using h

end Tilang
